import Mathlib

/-!
Shallow embedding of the note-timeline playback engine of
`src/music_visualizer/music_maker/music_maker.py`.

Times and durations (beats) are modelled as rationals, MIDI pitches and
velocities as integers.  Python `%` and `//` on integers with a positive
divisor coincide with Lean's `Int.emod` / `Int.ediv` (both Euclidean for a
positive divisor), and Python's `float("inf")` initial distance in
`snap_to_scale` is modelled as `⊤ : WithTop ℤ`.  Python's built-in `round`
(round half to even) is modelled exactly on rationals by `python_round`.
The background playback thread is modelled as a pure tick function: the
`while` loop of `playback_loop` becomes `playback_ticks`, parameterised by
fuel, and the pacing computation becomes `playback_sleep_intervals`.
-/

namespace MusicMaker

/-- Source `Note.__init__`: pitch (MIDI number), duration and start time in beats,
velocity. -/
structure Note where
  pitch : ℤ
  duration : ℚ
  start_time : ℚ
  velocity : ℤ
deriving DecidableEq

/-- Source `Track.__init__`: name, instrument, channel, note list, volume and the
mute/solo flags, with the constructor defaults of the source. -/
structure Track where
  name : String
  instrument : ℤ := 0
  channel : ℤ := 0
  notes : List Note := []
  volume : ℤ := 80
  muted : Bool := false
  solo : Bool := false
deriving DecidableEq

/-- Source `Track.get_notes_in_range`: the notes whose span intersects the window,
by the filter `note.start_time < end_time and note.start_time +
note.duration > start_time`. -/
def Track.get_notes_in_range (track : Track) (start_time end_time : ℚ) : List Note :=
  track.notes.filter fun note =>
    decide (note.start_time < end_time ∧ note.start_time + note.duration > start_time)

/-- Source `MusicProject.__init__`: track list plus tempo, time signature, key,
length in bars and project name, with the source's defaults. -/
structure MusicProject where
  tracks : List Track := []
  tempo : ℤ := 120
  time_signature : ℤ × ℤ := (4, 4)
  key : String := "C"
  length : ℤ := 16
  project_name : String := "Untitled"
deriving DecidableEq

/-- The track built by `create_default_track`: `Track("Track 1", instrument=0)`
with the `Track` constructor defaults for the remaining fields. -/
def default_track : Track := { name := "Track 1", instrument := 0 }

/-- The scan of `snap_to_scale`'s `for scale_note in scale_notes` loop:
accumulators `closest_note` and `closest_distance`, the latter starting at
`float("inf")` (here `⊤`), updated on a strict `distance < closest_distance`
comparison. -/
def find_closest (pc : ℤ) : List ℤ → ℤ → WithTop ℤ → ℤ
  | [], closest_note, _ => closest_note
  | scale_note :: rest, closest_note, closest_distance =>
    if ((|pc - scale_note| : ℤ) : WithTop ℤ) < closest_distance then
      find_closest pc rest scale_note ((|pc - scale_note| : ℤ) : WithTop ℤ)
    else
      find_closest pc rest closest_note closest_distance

/-- Source `MusicMakerFrame.snap_to_scale`: `note_in_octave = (midi_note - key_root)
% 12`, scan of the scale intervals for the closest one, then
`key_root + octave_offset * 12 + closest_note` with
`octave_offset = (midi_note - key_root) // 12`. -/
def snap_to_scale (key_root : ℤ) (scale_notes : List ℤ) (midi_note : ℤ) : ℤ :=
  let note_in_octave := (midi_note - key_root) % 12
  let closest_note := find_closest note_in_octave scale_notes note_in_octave ⊤
  let octave_offset := (midi_note - key_root) / 12
  key_root + octave_offset * 12 + closest_note

/-- The `Major` scale interval list of `MusicMakerFrame.scales`. -/
def major_scale : List ℤ := [0, 2, 4, 5, 7, 9, 11]

/-- Python's built-in `round` on an exact rational: nearest integer, halves
to the even neighbour. -/
def python_round (x : ℚ) : ℤ :=
  if x - ⌊x⌋ < 1/2 then ⌊x⌋
  else if 1/2 < x - ⌊x⌋ then ⌊x⌋ + 1
  else if ⌊x⌋ % 2 = 0 then ⌊x⌋ else ⌊x⌋ + 1

/-- The quantization step of `on_piano_roll_click`: when the quantize value
is positive, `x = round(x / quantize_value) * quantize_value`, otherwise `x`
is left unchanged. -/
def quantize (time grid : ℚ) : ℚ :=
  if 0 < grid then ((python_round (time / grid) : ℤ) : ℚ) * grid else time

/-- The note-activation test of `play_notes_at_position`:
`note_start <= position < note_end`. -/
def note_active (position : ℚ) (note : Note) : Bool :=
  decide (note.start_time ≤ position ∧ position < note.start_time + note.duration)

/-- Source `MusicMakerFrame.play_notes_at_position`: returns the notes forwarded to
`play_midi_note`.  The source returns early when audio is disabled or no
track is selected, and otherwise scans only `self.current_track.notes`. -/
def play_notes_at_position (audio_enabled : Bool) (current_track : Option Track)
    (position : ℚ) : List Note :=
  if audio_enabled = false then []
  else
    match current_track with
    | none => []
    | some track => track.notes.filter (note_active position)

/-- Spec-side counterpart of `play_notes_at_position`, written from the
spec's words "for every track, calls the note-activation query at the
current position and forwards hits": the activation query over every track
of the project. -/
def play_notes_all_tracks_spec (project : MusicProject) (position : ℚ) : List Note :=
  (project.tracks.map fun track => track.notes.filter (note_active position)).flatten

/-- The pacing of `playback_loop`: the source computes `beats_per_minute =
self.project.tempo`, `beats_per_second = beats_per_minute / 60.0` and
`time_per_beat = 1.0 / beats_per_second` once, before the `while` loop, and
then sleeps `time_per_beat * 0.1` after every tick.  `tempoAt t` is the
tempo stored in the project when tick `t` runs (a mid-playback tempo edit
changes `tempoAt` at later ticks); the result is the sleep interval of each
of the first `num_ticks` ticks. -/
def playback_sleep_intervals (tempoAt : ℕ → ℚ) (num_ticks : ℕ) : List ℚ :=
  let beats_per_minute := tempoAt 0
  let beats_per_second := beats_per_minute / 60
  let time_per_beat := 1 / beats_per_second
  (List.range num_ticks).map fun _ => time_per_beat * (1/10)

/-- Spec-side counterpart of `playback_sleep_intervals`, written from the
spec's words "Tempo changes taken from the owning Project are read fresh
each tick (no caching)": tick `t` sleeps `(60 / tempoAt t) * 0.1`. -/
def playback_sleep_intervals_spec (tempoAt : ℕ → ℚ) (num_ticks : ℕ) : List ℚ :=
  (List.range num_ticks).map fun t => (60 / tempoAt t) * (1/10)

/-- A tempo trace with an edit between tick 0 and tick 1: 120 BPM at tick 0,
60 BPM from tick 1 on. -/
def tempo_edit_trace : ℕ → ℚ := fun t => if t = 0 then 120 else 60

/-- Transport state of the frame: `self.is_playing` and
`self.playback_position`. -/
structure TransportState where
  is_playing : Bool
  playback_position : ℚ
deriving DecidableEq

/-- Source `MusicMakerFrame.on_stop`: clears `is_playing` and resets the position
to 0. -/
def on_stop (_st : TransportState) : TransportState :=
  { is_playing := false, playback_position := 0 }

/-- Source `MusicMakerFrame.on_play`: when stopped, starts playing from position 0;
when already playing, pauses (toggle), retaining the position. -/
def on_play (st : TransportState) : TransportState :=
  if st.is_playing = false then { is_playing := true, playback_position := 0 }
  else { st with is_playing := false }

/-- The `while` loop of `playback_loop` on an uninterrupted run
(`is_playing` stays true): while `position < max_beats`, a tick runs at the
current position and the position advances by the 0.1-beat increment.
Returns the positions at which ticks ran and the position at loop exit;
`fuel` bounds the number of iterations. -/
def playback_ticks (max_beats : ℚ) : ℕ → ℚ → List ℚ × ℚ
  | 0, pos => ([], pos)
  | fuel + 1, pos =>
    if pos < max_beats then
      (pos :: (playback_ticks max_beats fuel (pos + 1/10)).1,
        (playback_ticks max_beats fuel (pos + 1/10)).2)
    else ([], pos)

/-- Source `playback_loop` on an uninterrupted run: `max_beats = self.project.length
* self.project.time_signature[0]`, the `while` loop advances the position,
and on exit — `is_playing` still being set — `on_stop` is invoked
(`wx.CallAfter(self.on_stop, None)`). -/
def playback_loop_run (fuel : ℕ) (st : TransportState) (length numer : ℕ) :
    TransportState :=
  if st.is_playing then
    let max_beats : ℚ := ((length * numer : ℕ) : ℚ)
    on_stop { st with
      playback_position := (playback_ticks max_beats fuel st.playback_position).2 }
  else st

/-- Persisted form of a note: the keys of the note objects of the JSON
file.  A `none` field is a key absent from the object; `pitch`, `duration`
and `start_time` are read with `note_data[...]` (`KeyError` when absent),
`velocity` with `.get(..., 80)`. -/
structure NoteData where
  pitch : Option ℤ := none
  duration : Option ℚ := none
  start_time : Option ℚ := none
  velocity : Option ℤ := none
deriving DecidableEq

/-- Persisted form of a track: `name` is read with `track_data["name"]`
(`KeyError` when absent); `instrument`, `volume` and `notes` with `.get`
defaults. -/
structure TrackData where
  name : Option String := none
  instrument : Option ℤ := none
  volume : Option ℤ := none
  notes : Option (List NoteData) := none
deriving DecidableEq

/-- Persisted form of a project: every top-level key is read with `.get`
and a default. -/
structure ProjectData where
  name : Option String := none
  tempo : Option ℤ := none
  time_signature : Option (ℤ × ℤ) := none
  key : Option String := none
  length : Option ℤ := none
  tracks : Option (List TrackData) := none
deriving DecidableEq

/-- The note construction of `load_project`:
`Note(note_data["pitch"], note_data["duration"], note_data["start_time"],
note_data.get("velocity", 80))`; a missing required key raises. -/
def load_note (nd : NoteData) : Except String Note :=
  match nd.pitch with
  | none => .error "KeyError: pitch"
  | some p =>
    match nd.duration with
    | none => .error "KeyError: duration"
    | some d =>
      match nd.start_time with
      | none => .error "KeyError: start_time"
      | some s =>
        .ok { pitch := p, duration := d, start_time := s,
              velocity := nd.velocity.getD 80 }

/-- The inner `for note_data in track_data.get("notes", [])` loop: notes are
appended to the freshly built track, and a raise mid-loop discards the whole
track (it is only added to the project after the loop finishes). -/
def load_notes : List NoteData → Except String (List Note)
  | [] => .ok []
  | nd :: rest =>
    match load_note nd with
    | .error e => .error e
    | .ok n =>
      match load_notes rest with
      | .error e => .error e
      | .ok ns => .ok (n :: ns)

/-- One iteration of the `for track_data in data.get("tracks", [])` loop:
`Track(track_data["name"], track_data.get("instrument", 0))`, then
`track.volume = track_data.get("volume", 80)`, then the notes. -/
def load_track (td : TrackData) : Except String Track :=
  match td.name with
  | none => .error "KeyError: name"
  | some nm =>
    match load_notes (td.notes.getD []) with
    | .error e => .error e
    | .ok ns =>
      .ok { name := nm, instrument := td.instrument.getD 0, channel := 0,
            notes := ns, volume := td.volume.getD 80, muted := false,
            solo := false }

/-- The track loop of `load_project`: tracks are appended to `self.project`
one at a time, so a raise mid-loop leaves the tracks already completed in
the project.  Returns the completed tracks together with the error, if any,
that aborted the loop. -/
def load_tracks : List TrackData → List Track × Option String
  | [] => ([], none)
  | td :: rest =>
    match load_track td with
    | .error e => ([], some e)
    | .ok t =>
      let r := load_tracks rest
      (t :: r.1, r.2)

/-- The scalar-field part of `load_project`: `self.project = MusicProject()`
followed by the five `data.get(...)` assignments, before any track is
loaded. -/
def fresh_project (data : ProjectData) : MusicProject :=
  { tracks := [],
    tempo := data.tempo.getD 120,
    time_signature := data.time_signature.getD (4, 4),
    key := data.key.getD "C",
    length := data.length.getD 16,
    project_name := data.name.getD "Untitled" }

/-- The frame state touched by `load_project`: the owned project, the
`self.current_track` reference, and whether an error dialog was shown
(`wx.MessageBox` in the `except` clause). -/
structure FrameState where
  project : MusicProject
  current_track : Option Track
  last_error : Option String
deriving DecidableEq

/-- The frame state after `__init__` + `create_default_track`: a default
project holding the single default track, which is also the current track. -/
def init_frame : FrameState :=
  { project := { tracks := [default_track] },
    current_track := some default_track,
    last_error := none }

/-- Source `MusicMakerFrame.load_project`.  `input = none` models a file on which
`json.load` raises (parse error): nothing was assigned yet, so the whole
body is skipped and only the error dialog runs.  Otherwise the project is
replaced by a fresh one, the scalar fields are set, and tracks are loaded
one by one; a `KeyError` mid-loop jumps to the `except` clause with the
completed tracks in place and `self.current_track` untouched, while a clean
finish selects the first track, or creates the default track when none were
loaded. -/
def load_project (st : FrameState) (input : Option ProjectData) : FrameState :=
  match input with
  | none => { st with last_error := some "json parse error" }
  | some data =>
    let proj := fresh_project data
    let r := load_tracks (data.tracks.getD [])
    match r.2 with
    | some e =>
      { st with project := { proj with tracks := r.1 }, last_error := some e }
    | none =>
      match r.1 with
      | [] =>
        { project := { proj with tracks := [default_track] },
          current_track := some default_track, last_error := none }
      | t :: ts =>
        { project := { proj with tracks := t :: ts },
          current_track := some t, last_error := none }

/-- The note serialization of `save_project`: all four keys are written. -/
def save_note (n : Note) : NoteData :=
  { pitch := some n.pitch, duration := some n.duration,
    start_time := some n.start_time, velocity := some n.velocity }

/-- The track serialization of `save_project`: name, instrument, volume and
the note list are written (channel, muted and solo are not persisted). -/
def save_track (t : Track) : TrackData :=
  { name := some t.name, instrument := some t.instrument,
    volume := some t.volume, notes := some (t.notes.map save_note) }

/-- Source `MusicMakerFrame.save_project`: the serialized field contract — name,
tempo, time signature, key, length and the track list. -/
def save_project (p : MusicProject) : ProjectData :=
  { name := some p.project_name, tempo := some p.tempo,
    time_signature := some p.time_signature, key := some p.key,
    length := some p.length, tracks := some (p.tracks.map save_track) }

/-- A persisted input whose first track object is missing the required
`name` key. -/
def bad_track_input : ProjectData :=
  { tracks := some [{ notes := some [] }] }

/-- What `load_project` reconstructs from a track serialized by
`save_project`: the persisted fields are restored, while channel, muted and
solo take the `Track` constructor defaults. -/
def track_as_loaded (t : Track) : Track :=
  { name := t.name, instrument := t.instrument, channel := 0,
    notes := t.notes, volume := t.volume, muted := false, solo := false }

/-- A project with no tracks (the bare `MusicProject()` constructor). -/
def empty_project : MusicProject := {}

/-- Frequency computation of `play_midi_note`:
`440.0 * (2.0 ** ((midi_note - 69) / 12.0))`. -/
noncomputable def note_frequency (midi_note : ℤ) : ℝ :=
  440 * (2 : ℝ) ^ (((midi_note : ℝ) - 69) / 12)

/-- A note ending exactly at beat 1. -/
def edge_note_a : Note := { pitch := 60, duration := 1, start_time := 0, velocity := 80 }

/-- A note starting exactly at beat 1. -/
def edge_note_b : Note := { pitch := 62, duration := 1, start_time := 1, velocity := 80 }

/-- A track holding the two boundary notes. -/
def edge_track : Track := { name := "Edge", notes := [edge_note_a, edge_note_b] }

/-- A note sounding on the beat interval `[0, 1)`. -/
def beep_note : Note := { pitch := 60, duration := 1, start_time := 0, velocity := 80 }

/-- A track with no notes. -/
def silent_track : Track := { name := "Lead" }

/-- A track holding `beep_note`. -/
def beep_track : Track := { name := "Bass", notes := [beep_note] }

/-- A project with two tracks, where only the second one has a note. -/
def two_track_project : MusicProject := { tracks := [silent_track, beep_track] }

/-- A project with 2 tracks of 5 notes each, with varying pitch, duration,
start time and velocity. -/
def demo_project : MusicProject :=
  { tracks :=
      [{ name := "Melody", instrument := 1, channel := 0,
         notes :=
           [{ pitch := 60, duration := 1, start_time := 0, velocity := 90 },
            { pitch := 62, duration := 2, start_time := 1, velocity := 80 },
            { pitch := 64, duration := 1, start_time := 3, velocity := 70 },
            { pitch := 65, duration := 4, start_time := 4, velocity := 100 },
            { pitch := 67, duration := 2, start_time := 8, velocity := 60 }],
         volume := 90, muted := false, solo := false },
       { name := "Bassline", instrument := 33, channel := 1,
         notes :=
           [{ pitch := 36, duration := 4, start_time := 0, velocity := 110 },
            { pitch := 38, duration := 3, start_time := 4, velocity := 95 },
            { pitch := 40, duration := 2, start_time := 7, velocity := 85 },
            { pitch := 41, duration := 1, start_time := 9, velocity := 75 },
            { pitch := 43, duration := 6, start_time := 10, velocity := 65 }],
         volume := 70, muted := false, solo := true }],
    tempo := 96, time_signature := (3, 4), key := "G", length := 8,
    project_name := "Demo" }

/-- Claim C6: `get_notes_in_range` returns exactly the notes of the track
with `start_time < window_end` and `start_time + duration > window_start`;
a note with `start_time + duration = window_start` is excluded, and a note
with `start_time = window_start` (positive duration, nonempty window) is
included. -/
theorem get_notes_in_range_exact (tr : Track) (ws we : ℚ) :
    (∀ n, n ∈ tr.get_notes_in_range ws we ↔
      n ∈ tr.notes ∧ n.start_time < we ∧ n.start_time + n.duration > ws) ∧
    (∀ n ∈ tr.notes, n.start_time + n.duration = ws →
      n ∉ tr.get_notes_in_range ws we) ∧
    (∀ n ∈ tr.notes, n.start_time = ws → ws < we → 0 < n.duration →
      n ∈ tr.get_notes_in_range ws we) := by
  refine ⟨?_, ?_, ?_⟩
  · intro n
    simp [Track.get_notes_in_range, List.mem_filter, and_assoc]
  · intro n _ he hmem
    simp only [Track.get_notes_in_range, List.mem_filter, decide_eq_true_eq] at hmem
    have h2 := hmem.2.2
    rw [he] at h2
    exact lt_irrefl ws h2
  · intro n hn hs hw hd
    simp only [Track.get_notes_in_range, List.mem_filter, decide_eq_true_eq]
    refine ⟨hn, ?_, ?_⟩
    · rw [hs]; exact hw
    · rw [hs]; linarith

/-- Witness for `get_notes_in_range_exact` on the window `[1, 2)`: the note
ending at 1 is excluded, the note starting at 1 is included. -/
theorem get_notes_in_range_exact_witness :
    edge_note_a ∉ edge_track.get_notes_in_range 1 2 ∧
    edge_note_b ∈ edge_track.get_notes_in_range 1 2 :=
  ⟨(get_notes_in_range_exact edge_track 1 2).2.1 edge_note_a
      (by simp [edge_track]) (by norm_num [edge_note_a]),
    (get_notes_in_range_exact edge_track 1 2).2.2 edge_note_b
      (by simp [edge_track]) (by norm_num [edge_note_b]) (by norm_num)
      (by norm_num [edge_note_b])⟩

/-- Claim C9: the synthesizer frequency is `440 * 2 ^ ((p - 69) / 12)`;
A4 (pitch 69) is 440 Hz, and one octave up doubles the frequency. -/
theorem note_frequency_formula :
    note_frequency 69 = 440 ∧
    (∀ p : ℤ, note_frequency (p + 12) = 2 * note_frequency p) ∧
    (∀ p : ℤ, note_frequency p = 440 * (2 : ℝ) ^ (((p : ℝ) - 69) / 12)) := by
  refine ⟨?_, ?_, fun p => rfl⟩
  · unfold note_frequency
    norm_num
  · intro p
    unfold note_frequency
    have h : ((p + 12 : ℤ) : ℝ) - 69 = ((p : ℝ) - 69) + 12 := by push_cast; ring
    rw [h]
    have h2 : (((p : ℝ) - 69) + 12) / 12 = ((p : ℝ) - 69) / 12 + 1 := by ring
    rw [h2, Real.rpow_add (by norm_num : (0 : ℝ) < 2), Real.rpow_one]
    ring

lemma python_round_dist (y : ℚ) : |y - ((python_round y : ℤ) : ℚ)| ≤ 1/2 := by
  have h0 : ((⌊y⌋ : ℤ) : ℚ) ≤ y := Int.floor_le y
  have h1 : y < ((⌊y⌋ : ℤ) : ℚ) + 1 := Int.lt_floor_add_one y
  unfold python_round
  split_ifs with hlt hgt heven
  · rw [abs_le]; constructor <;> linarith
  · rw [abs_le]; constructor <;> push_cast <;> linarith
  · have heq : y - ((⌊y⌋ : ℤ) : ℚ) = 1/2 := by linarith
    rw [abs_le]; constructor <;> linarith
  · have heq : y - ((⌊y⌋ : ℤ) : ℚ) = 1/2 := by linarith
    rw [abs_le]; constructor <;> push_cast <;> linarith

lemma python_round_half_even (y : ℚ) (h : y - ((⌊y⌋ : ℤ) : ℚ) = 1/2) :
    python_round y % 2 = 0 := by
  unfold python_round
  split_ifs with hlt hgt heven
  · linarith
  · linarith
  · exact heven
  · omega

/-- Claim C5 (counterexample): the quantizer rounds halves to the even
neighbour (Python's built-in `round`), not away from zero: quantizing 0.5
on grid 1 yields 0 (away from zero would give 1), and 2.5 yields 2. -/
theorem quantize_half_counterexample :
    quantize (1/2) 1 = 0 ∧ quantize (5/2) 1 = 2 ∧ ¬ quantize (1/2) 1 = 1 := by
  norm_num [quantize, python_round]

/-- Claim C5 (amended): `quantize x 0 = x`, and for positive grid the result
is the multiple of the grid nearest to `x`, halves resolved toward the even
multiplier (round half to even). -/
theorem quantize_amended (x g : ℚ) :
    quantize x 0 = x ∧
    (0 < g → ∃ m : ℤ, quantize x g = (m : ℚ) * g ∧
      |x - (m : ℚ) * g| ≤ g / 2 ∧
      (x - ((⌊x / g⌋ : ℤ) : ℚ) * g = g / 2 → m % 2 = 0)) := by
  constructor
  · simp [quantize]
  · intro hg
    have hgne : g ≠ 0 := ne_of_gt hg
    refine ⟨python_round (x / g), ?_, ?_, ?_⟩
    · simp [quantize, hg]
    · have h := python_round_dist (x / g)
      rw [show x - ((python_round (x / g) : ℤ) : ℚ) * g =
          (x / g - ((python_round (x / g) : ℤ) : ℚ)) * g from by
            field_simp; ring,
        abs_mul, abs_of_pos hg]
      have := mul_le_mul_of_nonneg_right h (le_of_lt hg)
      linarith
    · intro ht
      apply python_round_half_even
      have hx : x / g - ((⌊x / g⌋ : ℤ) : ℚ) =
          (x - ((⌊x / g⌋ : ℤ) : ℚ) * g) / g := by field_simp; ring
      rw [hx, ht, div_div, mul_comm, ← div_div, div_self hgne]

/-- Witness for `quantize_amended` at `x = 1`, `g = 2` (a half case: `1/2`
rounds to the even integer 0, so 1 quantizes to 0). -/
theorem quantize_amended_witness :
    quantize (1 : ℚ) 0 = 1 ∧
    (∃ m : ℤ, quantize (1 : ℚ) 2 = (m : ℚ) * 2 ∧
      |(1 : ℚ) - (m : ℚ) * 2| ≤ 2 / 2 ∧
      ((1 : ℚ) - ((⌊(1 : ℚ) / 2⌋ : ℤ) : ℚ) * 2 = 2 / 2 → m % 2 = 0)) :=
  ⟨(quantize_amended 1 2).1, (quantize_amended 1 2).2 (by norm_num)⟩

/-- Claim C1 (counterexample): with a tempo edit from 120 to 60 BPM between
tick 0 and tick 1, the loop still sleeps `60/120 * 0.1 = 1/20` seconds at
tick 1 — the tempo was read once, before the loop — while fresh-per-tick
pacing would sleep `60/60 * 0.1 = 1/10` seconds. -/
theorem playback_pacing_counterexample :
    playback_sleep_intervals tempo_edit_trace 2 = [1/20, 1/20] ∧
    playback_sleep_intervals_spec tempo_edit_trace 2 = [1/20, 1/10] ∧
    playback_sleep_intervals tempo_edit_trace 2 ≠
      playback_sleep_intervals_spec tempo_edit_trace 2 := by
  have h1 : playback_sleep_intervals tempo_edit_trace 2 = [1/20, 1/20] := by
    norm_num [playback_sleep_intervals, tempo_edit_trace, List.range_succ]
  have h2 : playback_sleep_intervals_spec tempo_edit_trace 2 = [1/20, 1/10] := by
    norm_num [playback_sleep_intervals_spec, tempo_edit_trace, List.range_succ]
  refine ⟨h1, h2, ?_⟩
  rw [h1, h2]
  simp only [List.cons.injEq, and_imp, ne_eq, not_and]
  intro _ h
  norm_num at h

/-- Claim C1 (amended): `playback_loop` reads the tempo once, before its
loop: every tick of a run sleeps `(1 / (tempo0 / 60)) * 0.1` seconds where
`tempo0` is the tempo at tick 0, so a tempo edit at any later tick leaves
every sleep interval of the current run unchanged. -/
theorem playback_pacing_cached (tempoA tempoB : ℕ → ℚ) (n : ℕ)
    (h : tempoA 0 = tempoB 0) :
    playback_sleep_intervals tempoA n =
      List.replicate n (1 / (tempoA 0 / 60) * (1/10)) ∧
    playback_sleep_intervals tempoA n = playback_sleep_intervals tempoB n := by
  constructor
  · simp [playback_sleep_intervals, List.map_const']
  · simp [playback_sleep_intervals, h]

/-- Witness for `playback_pacing_cached`: a constant 120 BPM trace against
the edited trace, which agree at tick 0. -/
theorem playback_pacing_cached_witness :
    playback_sleep_intervals (fun _ => (120 : ℚ)) 2 =
      List.replicate 2 (1 / ((120 : ℚ) / 60) * (1/10)) ∧
    playback_sleep_intervals (fun _ => (120 : ℚ)) 2 =
      playback_sleep_intervals tempo_edit_trace 2 :=
  playback_pacing_cached (fun _ => (120 : ℚ)) tempo_edit_trace 2 rfl

/-- Claim C3 (counterexample): with two tracks where only the non-selected
one has a note sounding at position 0, the scheduler forwards nothing — it
scans only `self.current_track.notes` — while the per-track activation
query of the spec forwards the note. -/
theorem play_notes_counterexample :
    play_notes_at_position true (some silent_track) 0 = [] ∧
    play_notes_all_tracks_spec two_track_project 0 = [beep_note] ∧
    play_notes_at_position true (some silent_track) 0 ≠
      play_notes_all_tracks_spec two_track_project 0 := by
  have h1 : play_notes_at_position true (some silent_track) 0 = [] := by
    simp [play_notes_at_position, silent_track]
  have h2 : play_notes_all_tracks_spec two_track_project 0 = [beep_note] := by
    simp only [play_notes_all_tracks_spec, two_track_project, silent_track,
      beep_track, List.map_cons, List.map_nil, List.flatten]
    norm_num [note_active, beep_note]
  refine ⟨h1, h2, ?_⟩
  rw [h1, h2]
  simp

/-- Claim C3 (amended): each tick queries and forwards the notes of the
currently selected track only: the forwarded notes are exactly the
selected track's notes active at the position (point containment), a
subset of what the all-tracks query of the spec would forward; nothing is
forwarded when audio is disabled. -/
theorem play_notes_current_track_only (p : MusicProject) (tr : Track)
    (pos : ℚ) (htr : tr ∈ p.tracks) :
    (∀ n, n ∈ play_notes_at_position true (some tr) pos ↔
      n ∈ tr.notes ∧ n.start_time ≤ pos ∧ pos < n.start_time + n.duration) ∧
    (∀ n ∈ play_notes_at_position true (some tr) pos,
      n ∈ play_notes_all_tracks_spec p pos) ∧
    play_notes_at_position false (some tr) pos = [] := by
  refine ⟨?_, ?_, rfl⟩
  · intro n
    simp [play_notes_at_position, note_active, List.mem_filter, and_assoc]
  · intro n hn
    simp only [play_notes_at_position, if_neg (by simp : ¬ true = false)] at hn
    simp only [play_notes_all_tracks_spec, List.mem_flatten]
    exact ⟨tr.notes.filter (note_active pos), List.mem_map_of_mem _ htr, hn⟩

/-- Witness for `play_notes_current_track_only`: the selected track is the
beeping track of the two-track project; its note at position 0 is forwarded
and also lies in the all-tracks answer. -/
theorem play_notes_current_track_only_witness :
    beep_note ∈ play_notes_at_position true (some beep_track) 0 ∧
    beep_note ∈ play_notes_all_tracks_spec two_track_project 0 := by
  have h := play_notes_current_track_only two_track_project beep_track 0
    (by simp [two_track_project])
  have hmem : beep_note ∈ play_notes_at_position true (some beep_track) 0 :=
    (h.1 beep_note).2
      ⟨by simp [beep_track], by norm_num [beep_note], by norm_num [beep_note]⟩
  exact ⟨hmem, h.2.1 beep_note hmem⟩

lemma find_closest_first_step (pc s : ℤ) (rest : List ℤ) (cn : ℤ) :
    find_closest pc (s :: rest) cn ⊤ =
      find_closest pc rest s ((|pc - s| : ℤ) : WithTop ℤ) := by
  simp only [find_closest]
  rw [if_pos (WithTop.coe_lt_top _)]

lemma find_closest_min (pc : ℤ) (l : List ℤ) :
    ∀ cn : ℤ,
      find_closest pc l cn ((|pc - cn| : ℤ) : WithTop ℤ) ∈ cn :: l ∧
      ∀ s ∈ cn :: l,
        |pc - find_closest pc l cn ((|pc - cn| : ℤ) : WithTop ℤ)| ≤ |pc - s| := by
  induction l with
  | nil =>
    intro cn
    simp [find_closest]
  | cons a rest ih =>
    intro cn
    by_cases hd : |pc - a| < |pc - cn|
    · have hstep : find_closest pc (a :: rest) cn ((|pc - cn| : ℤ) : WithTop ℤ) =
          find_closest pc rest a ((|pc - a| : ℤ) : WithTop ℤ) := by
        simp only [find_closest]
        rw [if_pos (by exact_mod_cast hd)]
      rw [hstep]
      obtain ⟨hmem, hmin⟩ := ih a
      refine ⟨?_, ?_⟩
      · rcases List.mem_cons.1 hmem with h | h
        · rw [h]; exact List.mem_cons_of_mem _ (List.mem_cons_self _ _)
        · exact List.mem_cons_of_mem _ (List.mem_cons_of_mem _ h)
      · intro s hs
        rcases List.mem_cons.1 hs with h | h
        · rw [h]
          exact le_trans (hmin a (List.mem_cons_self _ _)) (le_of_lt hd)
        · exact hmin s h
    · have hstep : find_closest pc (a :: rest) cn ((|pc - cn| : ℤ) : WithTop ℤ) =
          find_closest pc rest cn ((|pc - cn| : ℤ) : WithTop ℤ) := by
        simp only [find_closest]
        rw [if_neg (by exact_mod_cast hd)]
      rw [hstep]
      obtain ⟨hmem, hmin⟩ := ih cn
      push_neg at hd
      refine ⟨?_, ?_⟩
      · rcases List.mem_cons.1 hmem with h | h
        · rw [h]; exact List.mem_cons_self _ _
        · exact List.mem_cons_of_mem _ (List.mem_cons_of_mem _ h)
      · intro s hs
        rcases List.mem_cons.1 hs with h | h
        · rw [h]
          exact hmin cn (List.mem_cons_self _ _)
        · rcases List.mem_cons.1 h with h2 | h2
          · rw [h2]
            exact le_trans (hmin cn (List.mem_cons_self _ _)) hd
          · exact hmin s (List.mem_cons_of_mem _ h2)

lemma find_closest_tie (pc : ℤ) (l : List ℤ) :
    ∀ cn : ℤ, List.Pairwise (· ≤ ·) (cn :: l) →
      ∀ x ∈ cn :: l,
        |pc - x| = |pc - find_closest pc l cn ((|pc - cn| : ℤ) : WithTop ℤ)| →
        find_closest pc l cn ((|pc - cn| : ℤ) : WithTop ℤ) ≤ x := by
  induction l with
  | nil =>
    intro cn _ x hx _
    simp only [find_closest]
    simp only [List.mem_singleton] at hx
    rw [hx]
  | cons a rest ih =>
    intro cn hp x hx heq
    have hcn_le : ∀ y ∈ a :: rest, cn ≤ y := (List.pairwise_cons.1 hp).1
    have hp_tail : List.Pairwise (· ≤ ·) (a :: rest) := (List.pairwise_cons.1 hp).2
    have hp_cn_rest : List.Pairwise (· ≤ ·) (cn :: rest) :=
      List.pairwise_cons.2
        ⟨fun y hy => hcn_le y (List.mem_cons_of_mem _ hy),
          (List.pairwise_cons.1 hp_tail).2⟩
    by_cases hd : |pc - a| < |pc - cn|
    · have hstep : find_closest pc (a :: rest) cn ((|pc - cn| : ℤ) : WithTop ℤ) =
          find_closest pc rest a ((|pc - a| : ℤ) : WithTop ℤ) := by
        simp only [find_closest]
        rw [if_pos (by exact_mod_cast hd)]
      rw [hstep] at heq ⊢
      rcases List.mem_cons.1 hx with h | h
      · exfalso
        obtain ⟨_, hmin⟩ := find_closest_min pc rest a
        have h1 := hmin a (List.mem_cons_self _ _)
        rw [h] at heq
        linarith
      · exact ih a hp_tail x h heq
    · have hstep : find_closest pc (a :: rest) cn ((|pc - cn| : ℤ) : WithTop ℤ) =
          find_closest pc rest cn ((|pc - cn| : ℤ) : WithTop ℤ) := by
        simp only [find_closest]
        rw [if_neg (by exact_mod_cast hd)]
      rw [hstep] at heq ⊢
      push_neg at hd
      rcases List.mem_cons.1 hx with h | h
      · rw [h] at heq ⊢
        exact ih cn hp_cn_rest cn (List.mem_cons_self _ _) heq
      · rcases List.mem_cons.1 h with h2 | h2
        · obtain ⟨_, hmin⟩ := find_closest_min pc rest cn
          have h1 := hmin cn (List.mem_cons_self _ _)
          rw [h2] at heq
          have hcneq : |pc - cn| =
              |pc - find_closest pc rest cn ((|pc - cn| : ℤ) : WithTop ℤ)| := by
            linarith
          have hr_le_cn := ih cn hp_cn_rest cn (List.mem_cons_self _ _) hcneq
          rw [h2]
          exact le_trans hr_le_cn (hcn_le a (List.mem_cons_self _ _))
        · exact ih cn hp_cn_rest x (List.mem_cons_of_mem _ h2) heq

lemma snap_eq (p k s0 : ℤ) (rest : List ℤ) :
    snap_to_scale k (s0 :: rest) p =
      k + ((p - k) / 12) * 12 +
        find_closest ((p - k) % 12) rest s0
          ((|(p - k) % 12 - s0| : ℤ) : WithTop ℤ) := by
  unfold snap_to_scale
  simp only []
  rw [find_closest_first_step]

lemma snap_formula_emod (k d c : ℤ) (h0 : 0 ≤ c) (h12 : c < 12) :
    (k + d * 12 + c - k) % 12 = c := by
  have h : k + d * 12 + c - k = c + d * 12 := by ring
  rw [h, Int.add_mul_emod_self]
  exact Int.emod_eq_of_lt h0 h12

/-- Claim C4: `snap_to_scale` computes `pitch_class = (p - k) mod 12`, picks
the interval of the scale at minimum absolute distance from the pitch class
— ties going to the numerically smaller interval under the ascending scan
with its strict comparison — and returns
`k + floor((p - k)/12) * 12 + chosen`; the result's pitch class relative to
the key root is a member of the scale. -/
theorem snap_to_scale_correct (p k : ℤ) (S : List ℤ) (hne : S ≠ [])
    (hsorted : List.Pairwise (· ≤ ·) S) (hrange : ∀ s ∈ S, 0 ≤ s ∧ s < 12) :
    ∃ c ∈ S,
      snap_to_scale k S p = k + ((p - k) / 12) * 12 + c ∧
      (∀ s ∈ S, |(p - k) % 12 - c| ≤ |(p - k) % 12 - s|) ∧
      (∀ s ∈ S, |(p - k) % 12 - s| = |(p - k) % 12 - c| → c ≤ s) ∧
      (snap_to_scale k S p - k) % 12 ∈ S := by
  obtain ⟨s0, rest, rfl⟩ := List.exists_cons_of_ne_nil hne
  obtain ⟨hmem, hmin⟩ := find_closest_min ((p - k) % 12) rest s0
  have htie := find_closest_tie ((p - k) % 12) rest s0 hsorted
  have hcr := hrange _ hmem
  refine ⟨_, hmem, snap_eq p k s0 rest, hmin, htie, ?_⟩
  rw [snap_eq p k s0 rest, snap_formula_emod k _ _ hcr.1 hcr.2]
  exact hmem

/-- Witness for `snap_to_scale_correct`: pitch 61 (C#4) against a C major
scale. -/
theorem snap_to_scale_correct_witness :
    ∃ c ∈ major_scale,
      snap_to_scale 0 major_scale 61 = 0 + ((61 - 0) / 12) * 12 + c ∧
      (∀ s ∈ major_scale, |(61 - 0) % 12 - c| ≤ |(61 - 0) % 12 - s|) ∧
      (∀ s ∈ major_scale, |(61 - 0) % 12 - s| = |(61 - 0) % 12 - c| → c ≤ s) ∧
      (snap_to_scale 0 major_scale 61 - 0) % 12 ∈ major_scale :=
  snap_to_scale_correct 61 0 major_scale (by decide) (by decide) (by decide)

lemma snap_fixed (p k : ℤ) (S : List ℤ) (hne : S ≠ [])
    (hmem : (p - k) % 12 ∈ S) : snap_to_scale k S p = p := by
  obtain ⟨s0, rest, rfl⟩ := List.exists_cons_of_ne_nil hne
  obtain ⟨hm, hmin⟩ := find_closest_min ((p - k) % 12) rest s0
  have h0 := hmin _ hmem
  rw [sub_self, abs_zero] at h0
  have h1 : |(p - k) % 12 -
      find_closest ((p - k) % 12) rest s0
        ((|(p - k) % 12 - s0| : ℤ) : WithTop ℤ)| = 0 :=
    le_antisymm h0 (abs_nonneg _)
  have h2 := abs_eq_zero.1 h1
  rw [snap_eq p k s0 rest]
  omega

lemma snap_mem_helper (p k : ℤ) (S : List ℤ) (hne : S ≠ [])
    (hrange : ∀ s ∈ S, 0 ≤ s ∧ s < 12) :
    (snap_to_scale k S p - k) % 12 ∈ S := by
  obtain ⟨s0, rest, rfl⟩ := List.exists_cons_of_ne_nil hne
  obtain ⟨hm, _⟩ := find_closest_min ((p - k) % 12) rest s0
  have hr := hrange _ hm
  rw [snap_eq p k s0 rest, snap_formula_emod k _ _ hr.1 hr.2]
  exact hm

/-- Claim C10: scale snapping is idempotent — a pitch whose pitch class is
already in the scale is returned unchanged, and snapping twice equals
snapping once. -/
theorem snap_to_scale_idempotent (p k : ℤ) (S : List ℤ) (hne : S ≠ [])
    (hrange : ∀ s ∈ S, 0 ≤ s ∧ s < 12) :
    ((p - k) % 12 ∈ S → snap_to_scale k S p = p) ∧
    snap_to_scale k S (snap_to_scale k S p) = snap_to_scale k S p :=
  ⟨fun hmem => snap_fixed p k S hne hmem,
    snap_fixed _ k S hne (snap_mem_helper p k S hne hrange)⟩

/-- Witness for `snap_to_scale_idempotent`: middle C against a C major
scale is a fixed point, and double snap equals single snap. -/
theorem snap_to_scale_idempotent_witness :
    snap_to_scale 0 major_scale 60 = 60 ∧
    snap_to_scale 0 major_scale (snap_to_scale 0 major_scale 60) =
      snap_to_scale 0 major_scale 60 :=
  ⟨(snap_to_scale_idempotent 60 0 major_scale (by decide) (by decide)).1
      (by decide),
    (snap_to_scale_idempotent 60 0 major_scale (by decide) (by decide)).2⟩

lemma playback_ticks_run (j : ℕ) :
    ∀ (fuel : ℕ) (pos mb : ℚ), mb = pos + (j : ℚ) / 10 → j ≤ fuel →
      (playback_ticks mb fuel pos).2 = mb ∧
        ∀ q ∈ (playback_ticks mb fuel pos).1, q < mb := by
  induction j with
  | zero =>
    intro fuel pos mb hmb _
    have hpos : ¬ pos < mb := by rw [hmb]; simp
    cases fuel with
    | zero => simp [playback_ticks, hmb]
    | succ f => simp [playback_ticks, hpos, hmb]
  | succ j ih =>
    intro fuel pos mb hmb hle
    cases fuel with
    | zero => omega
    | succ f =>
      have hpos : pos < mb := by
        rw [hmb]
        have h10 : (0 : ℚ) < ((j : ℚ) + 1) / 10 := by positivity
        push_cast
        linarith
      have hmb' : mb = (pos + 1/10) + (j : ℚ) / 10 := by
        rw [hmb]; push_cast; ring
      have hr := ih f (pos + 1/10) mb hmb' (by omega)
      simp only [playback_ticks, if_pos hpos]
      refine ⟨hr.1, ?_⟩
      intro q hq
      rcases List.mem_cons.1 hq with h | h
      · rw [h]; exact hpos
      · exact hr.2 q h

/-- Claim C7: on an uninterrupted Playing run from position 0, the tick
loop stops exactly when the position reaches
`length_beats = length * time_signature numerator`: every tick runs at a
position strictly below `length_beats`, the loop exits with the position
exactly at `length_beats` (never beyond), and the transport then
automatically transitions to Stopped with the position reset to 0. -/
theorem playback_auto_stop (length numer : ℕ) (_hl : 0 < length)
    (_hn : 0 < numer) :
    (playback_ticks ((length * numer : ℕ) : ℚ) (10 * (length * numer)) 0).2 =
      ((length * numer : ℕ) : ℚ) ∧
    (∀ q ∈ (playback_ticks ((length * numer : ℕ) : ℚ)
        (10 * (length * numer)) 0).1, q < ((length * numer : ℕ) : ℚ)) ∧
    playback_loop_run (10 * (length * numer))
        (on_play { is_playing := false, playback_position := 0 })
        length numer =
      { is_playing := false, playback_position := 0 } := by
  have h := playback_ticks_run (10 * (length * numer)) (10 * (length * numer))
    0 ((length * numer : ℕ) : ℚ) (by push_cast; ring) (le_refl _)
  refine ⟨h.1, h.2, ?_⟩
  simp [playback_loop_run, on_play, on_stop]

/-- Witness for `playback_auto_stop`: one bar of one beat (`length_beats =
1`), run with 10 ticks of fuel. -/
theorem playback_auto_stop_witness :
    (playback_ticks ((1 * 1 : ℕ) : ℚ) (10 * (1 * 1)) 0).2 =
      ((1 * 1 : ℕ) : ℚ) ∧
    (∀ q ∈ (playback_ticks ((1 * 1 : ℕ) : ℚ) (10 * (1 * 1)) 0).1,
      q < ((1 * 1 : ℕ) : ℚ)) ∧
    playback_loop_run (10 * (1 * 1))
        (on_play { is_playing := false, playback_position := 0 }) 1 1 =
      { is_playing := false, playback_position := 0 } :=
  playback_auto_stop 1 1 (by decide) (by decide)

lemma load_tracks_sound (l : List TrackData) :
    ∀ t ∈ (load_tracks l).1, ∃ td ∈ l, load_track td = .ok t := by
  induction l with
  | nil => simp [load_tracks]
  | cons td rest ih =>
    intro t ht
    simp only [load_tracks] at ht
    cases h : load_track td with
    | error e => rw [h] at ht; simp at ht
    | ok tr =>
      rw [h] at ht
      simp only [List.mem_cons] at ht
      rcases ht with h1 | h1
      · exact ⟨td, List.mem_cons_self _ _, by rw [h, h1]⟩
      · obtain ⟨td2, hm, he⟩ := ih t h1
        exact ⟨td2, List.mem_cons_of_mem _ hm, he⟩

/-- Claim C2 (counterexample): loading an input whose only track object is
missing the required `name` key reports an error but leaves the in-memory
project with zero tracks — not a fresh default project with a single
default track — and the stale current-track reference in place. -/
theorem load_project_counterexample :
    (load_project init_frame (some bad_track_input)).project.tracks = [] ∧
    (load_project init_frame (some bad_track_input)).last_error.isSome = true ∧
    ¬ (load_project init_frame
        (some bad_track_input)).project.tracks.length = 1 := by
  refine ⟨rfl, rfl, ?_⟩
  intro h
  have h0 : (load_project init_frame
      (some bad_track_input)).project.tracks = [] := rfl
  rw [h0] at h
  simp at h

lemma load_project_some_error (st : FrameState) (data : ProjectData)
    (done : List Track) (e : String)
    (hfail : load_tracks (data.tracks.getD []) = (done, some e)) :
    load_project st (some data) =
      { st with
        project := { fresh_project data with tracks := done },
        last_error := some e } := by
  simp only [load_project, hfail]

lemma load_project_no_tracks (st : FrameState) (data : ProjectData)
    (h : data.tracks = none) :
    load_project st (some data) =
      { project := { fresh_project data with tracks := [default_track] },
        current_track := some default_track, last_error := none } := by
  simp only [load_project, h, Option.getD_none, load_tracks]

/-- Claim C2 (amended): on a parse error the failure is reported and the
pre-existing project and current-track reference are kept unchanged (no
fresh default is substituted); on a missing required field the failure is
reported without crashing, but the in-memory project is left partially
overwritten — a fresh project carrying the persisted scalar fields and
exactly the tracks parsed before the failure, with no default track added
and the stale current-track reference retained; an input that merely lacks
the `tracks` key is not a failure and loads as a default single-track
project with no reported error. -/
theorem load_project_failure (st : FrameState) (data data2 : ProjectData)
    (done : List Track) (e : String)
    (hfail : load_tracks (data.tracks.getD []) = (done, some e))
    (hmissing : data2.tracks = none) :
    ((load_project st none).project = st.project ∧
      (load_project st none).current_track = st.current_track ∧
      (load_project st none).last_error.isSome = true) ∧
    ((load_project st (some data)).last_error = some e ∧
      (load_project st (some data)).project =
        { fresh_project data with tracks := done } ∧
      (load_project st (some data)).current_track = st.current_track ∧
      ∀ t ∈ done, ∃ td ∈ data.tracks.getD [], load_track td = .ok t) ∧
    ((load_project st (some data2)).last_error = none ∧
      (load_project st (some data2)).project.tracks = [default_track]) := by
  have hsound := load_tracks_sound (data.tracks.getD [])
  rw [hfail] at hsound
  rw [load_project_some_error st data done e hfail,
    load_project_no_tracks st data2 hmissing]
  exact ⟨⟨rfl, rfl, rfl⟩, ⟨rfl, rfl, rfl, hsound⟩, rfl, rfl⟩

/-- Witness for `load_project_failure`: the input whose only track misses
its `name` key, and an input missing the `tracks` key, applied to the
initial frame state. -/
theorem load_project_failure_witness :
    ((load_project init_frame none).project = init_frame.project ∧
      (load_project init_frame none).current_track =
        init_frame.current_track ∧
      (load_project init_frame none).last_error.isSome = true) ∧
    ((load_project init_frame (some bad_track_input)).last_error =
        some "KeyError: name" ∧
      (load_project init_frame (some bad_track_input)).project =
        { fresh_project bad_track_input with tracks := [] } ∧
      (load_project init_frame (some bad_track_input)).current_track =
        init_frame.current_track ∧
      ∀ t ∈ ([] : List Track),
        ∃ td ∈ bad_track_input.tracks.getD [], load_track td = .ok t) ∧
    ((load_project init_frame (some ({} : ProjectData))).last_error = none ∧
      (load_project init_frame
        (some ({} : ProjectData))).project.tracks = [default_track]) :=
  load_project_failure init_frame bad_track_input {} [] "KeyError: name"
    rfl rfl

lemma load_note_save (n : Note) : load_note (save_note n) = .ok n := rfl

lemma load_notes_save (ns : List Note) :
    load_notes (ns.map save_note) = .ok ns := by
  induction ns with
  | nil => rfl
  | cons n rest ih =>
    simp only [List.map_cons, load_notes, load_note_save, ih]

lemma load_track_save (t : Track) :
    load_track (save_track t) = .ok (track_as_loaded t) := by
  simp only [load_track, save_track, Option.getD_some, load_notes_save,
    track_as_loaded]

lemma load_tracks_save (ts : List Track) :
    load_tracks (ts.map save_track) = (ts.map track_as_loaded, none) := by
  induction ts with
  | nil => rfl
  | cons t rest ih =>
    simp only [List.map_cons, load_tracks, load_track_save, ih]

/-- Claim C8 (counterexample): the serialize/deserialize round trip is not
the identity for a project with no tracks — loading substitutes a single
default track, so the track lists differ. -/
theorem save_load_counterexample :
    empty_project.tracks.length = 0 ∧
    (load_project init_frame
      (some (save_project empty_project))).project.tracks.length = 1 ∧
    ¬ (load_project init_frame
        (some (save_project empty_project))).project.tracks =
      empty_project.tracks := by
  refine ⟨rfl, rfl, ?_⟩
  intro h
  have h0 : (load_project init_frame
      (some (save_project empty_project))).project.tracks =
      [default_track] := rfl
  rw [h0] at h
  simp [empty_project] at h

lemma load_project_save_eq (st : FrameState) (p : MusicProject) (t0 : Track)
    (ts : List Track) (hts : p.tracks = t0 :: ts) :
    load_project st (some (save_project p)) =
      { project :=
          { tracks := List.map track_as_loaded (t0 :: ts),
            tempo := p.tempo, time_signature := p.time_signature,
            key := p.key, length := p.length,
            project_name := p.project_name },
        current_track := some (track_as_loaded t0),
        last_error := none } := by
  have hget : (save_project p).tracks.getD [] =
      List.map save_track (t0 :: ts) := by
    simp [save_project, hts]
  simp only [load_project, hget, load_tracks_save]
  simp [fresh_project, save_project]

/-- Claim C8 (amended): for every project with at least one track,
serializing and then deserializing reproduces the project field for field
on the persisted contract — name, tempo, time signature, key, length, and
per track its name, instrument, volume and note list — with no load
error. -/
theorem save_load_roundtrip (st : FrameState) (p : MusicProject)
    (hne : p.tracks ≠ []) :
    (load_project st (some (save_project p))).last_error = none ∧
    (load_project st (some (save_project p))).project.project_name =
      p.project_name ∧
    (load_project st (some (save_project p))).project.tempo = p.tempo ∧
    (load_project st (some (save_project p))).project.time_signature =
      p.time_signature ∧
    (load_project st (some (save_project p))).project.key = p.key ∧
    (load_project st (some (save_project p))).project.length = p.length ∧
    (load_project st (some (save_project p))).project.tracks.map
        (fun t => (t.name, t.instrument, t.volume, t.notes)) =
      p.tracks.map (fun t => (t.name, t.instrument, t.volume, t.notes)) := by
  obtain ⟨t0, ts, hts⟩ := List.exists_cons_of_ne_nil hne
  rw [load_project_save_eq st p t0 ts hts]
  refine ⟨rfl, rfl, rfl, rfl, rfl, rfl, ?_⟩
  rw [hts]
  simp [track_as_loaded, List.map_map, Function.comp]

/-- Witness for `save_load_roundtrip`: the demo project with 2 tracks of 5
notes each, with varying pitch, duration, start time and velocity. -/
theorem save_load_roundtrip_witness :
    (load_project init_frame
      (some (save_project demo_project))).last_error = none ∧
    (load_project init_frame
      (some (save_project demo_project))).project.project_name =
        demo_project.project_name ∧
    (load_project init_frame
      (some (save_project demo_project))).project.tempo =
        demo_project.tempo ∧
    (load_project init_frame
      (some (save_project demo_project))).project.time_signature =
        demo_project.time_signature ∧
    (load_project init_frame
      (some (save_project demo_project))).project.key = demo_project.key ∧
    (load_project init_frame
      (some (save_project demo_project))).project.length =
        demo_project.length ∧
    (load_project init_frame
      (some (save_project demo_project))).project.tracks.map
        (fun t => (t.name, t.instrument, t.volume, t.notes)) =
      demo_project.tracks.map
        (fun t => (t.name, t.instrument, t.volume, t.notes)) :=
  save_load_roundtrip init_frame demo_project (by simp [demo_project])

end MusicMaker
